import Mathlib

/-!
# Verification of the tabular extractor in `convert_xls_to_csv.py`

Shallow embedding of the spreadsheet structural extractor of the
ElectionFairness repository (`src/data_collection/convert_xls_to_csv.py`).
A sheet is a rectangular grid of optional text cells (pandas reads with
`header=None, dtype=str`, so every present cell is a string and absent
cells are missing).  The pipeline is: locate the "Precinct No" header by
regex search over normalized cells, derive fixed-offset data columns
(+1 name, +5 active, +6 inactive), extract, filter, clean numerics
(`astype("Int64")`, which is int64-backed and raises on residues that
are malformed or outside `[-2^63, 2^63-1]`), drop fully-empty rows, and
concatenate over all sheets of a workbook.  The embedding also models
the index alignment the `pd.DataFrame` dict-of-Series constructor
performs: when a derived column exceeds the sheet width, `safe_col`'s
fallback Series carries a fresh `RangeIndex`, and the union with `data`'s
index adds phantom all-missing leading rows to the frame.
-/

namespace ElectionFairness

/-- A cell of a sheet: missing (`none`, pandas `NaN`/`pd.NA`) or a string
(`dtype=str` makes every present value a string). -/
abbrev Cell := Option String

abbrev Row := List Cell

/-- A sheet grid as pandas sees it: a fixed column count `ncols`
(`df.shape[1]`) and a list of rows (`df.shape[0] = rows.length`). -/
structure Grid where
  ncols : Nat
  rows : List Row
deriving Repr

/-- Python `\s` on the ASCII range (space, tab, newline, carriage return,
vertical tab, form feed). -/
def isPyWS (c : Char) : Bool :=
  c = ' ' || c = '\t' || c = '\n' || c = '\r' || c = Char.ofNat 11 || c = Char.ofNat 12

/-- Python `str.strip()`: drop leading and trailing whitespace. -/
def pyStripList (l : List Char) : List Char :=
  ((l.dropWhile isPyWS).reverse.dropWhile isPyWS).reverse

def pyStrip (s : String) : String :=
  String.mk (pyStripList s.toList)

/-- `re.sub(r"\s+", " ", s)`: replace every maximal whitespace run by a
single space.  `prevWS` records whether the previous character belonged
to a run already replaced. -/
def collapseWSAux : Bool → List Char → List Char
  | _, [] => []
  | prevWS, c :: cs =>
    if isPyWS c then
      if prevWS then collapseWSAux true cs else ' ' :: collapseWSAux true cs
    else c :: collapseWSAux false cs

def collapseWS (l : List Char) : List Char := collapseWSAux false l

/-- `_norm_cell`: missing becomes `""`; otherwise strip, then collapse
internal whitespace runs to single spaces. -/
def normCell (x : Cell) : String :=
  match x with
  | none => ""
  | some s => String.mk (collapseWS (pyStripList s.toList))

/-! ## The header regex

`PRECINCT_NO_HEADER = re.compile(r"\bprecinct\s*(?:no\.?|number|#)\b", re.I)`
searched (`re.search`) anywhere in the normalized cell text.  We model the
exact boolean semantics of this one pattern: word characters are ASCII
alphanumerics and underscore, `\b` is a word/non-word boundary (string ends
count as non-word), case-insensitivity by lowercasing the text. -/

def isWordChar (c : Char) : Bool := c.isAlphanum || c = '_'

def isWordAt (t : List Char) (i : Nat) : Bool :=
  match t.get? i with
  | some c => isWordChar c
  | none => false

/-- `\b` holds at position `i` iff exactly one of the character before and
the character at `i` is a word character. -/
def boundaryAt (t : List Char) (i : Nat) : Bool :=
  (if i = 0 then false else isWordAt t (i - 1)) != isWordAt t i

/-- The literal `lit` occurs in `t` starting at position `i`. -/
def litAt (t : List Char) (i : Nat) : List Char → Bool
  | [] => true
  | c :: cs =>
    match t.get? i with
    | some d => d = c && litAt t (i + 1) cs
    | none => false

/-- Number of consecutive whitespace characters of `t` starting at `j`. -/
def wsRunLen (t : List Char) (j : Nat) : Nat :=
  ((t.drop j).takeWhile isPyWS).length

/-- The alternation `(?:no\.?|number|#)` followed by `\b`, tried at
position `p`. -/
def altAt (t : List Char) (p : Nat) : Bool :=
  (litAt t p ['n', 'o', '.'] && boundaryAt t (p + 3)) ||
  (litAt t p ['n', 'o'] && boundaryAt t (p + 2)) ||
  (litAt t p ['n', 'u', 'm', 'b', 'e', 'r'] && boundaryAt t (p + 6)) ||
  (litAt t p ['#'] && boundaryAt t (p + 1))

/-- The whole pattern matched at start position `i` (with backtracking over
the greedy `\s*`, which for a boolean result is an existential over the run
length). -/
def matchAt (t : List Char) (i : Nat) : Bool :=
  boundaryAt t i &&
  litAt t i ['p', 'r', 'e', 'c', 'i', 'n', 'c', 't'] &&
  (List.range (wsRunLen t (i + 8) + 1)).any fun k => altAt t (i + 8 + k)

/-- `PRECINCT_NO_HEADER.search(s)` is truthy: the pattern matches starting
at some position of the lowercased text. -/
def searchPrecinct (s : String) : Bool :=
  let t := s.toList.map Char.toLower
  (List.range (t.length + 1)).any fun i => matchAt t i

/-! ## Header location -/

/-- Cell access `norm.iat[r, c]` (missing outside the grid, which the scan
never touches on a rectangular grid). -/
def Grid.cell (g : Grid) (r c : Nat) : Cell :=
  (((g.rows.get? r).getD []).get? c).getD none

/-- The scanned predicate: the normalized cell at `(r, c)` matches the
header pattern. -/
def matchesAt (g : Grid) (r c : Nat) : Bool :=
  searchPrecinct (normCell (g.cell r c))

/-- Scan columns `c, c+1, …, ncols-1` of row `r` for the first match;
the structural `fuel` argument (instantiated with `ncols - c`) makes the
scan compute by reduction. -/
def findColFuel (g : Grid) (r : Nat) : Nat → Nat → Option Nat
  | 0, _ => none
  | fuel + 1, c =>
    if c < g.ncols then
      if matchesAt g r c then some c else findColFuel g r fuel (c + 1)
    else none

def findColFrom (g : Grid) (r c : Nat) : Option Nat :=
  findColFuel g r (g.ncols - c) c

theorem findColFrom_eq (g : Grid) (r c : Nat) :
    findColFrom g r c =
      if c < g.ncols then
        if matchesAt g r c then some c else findColFrom g r (c + 1)
      else none := by
  unfold findColFrom
  cases h : g.ncols - c with
  | zero =>
    rw [if_neg (by omega)]
    rfl
  | succ m =>
    have hm : m = g.ncols - (c + 1) := by omega
    rw [findColFuel, hm]

/-- Scan rows `r, r+1, …, scan-1` for the first row-major match. -/
def findHdrFuel (g : Grid) (scan : Nat) : Nat → Nat → Option (Nat × Nat)
  | 0, _ => none
  | fuel + 1, r =>
    if r < scan then
      match findColFrom g r 0 with
      | some c => some (r, c)
      | none => findHdrFuel g scan fuel (r + 1)
    else none

def findHdrFrom (g : Grid) (scan r : Nat) : Option (Nat × Nat) :=
  findHdrFuel g scan (scan - r) r

theorem findHdrFrom_eq (g : Grid) (scan r : Nat) :
    findHdrFrom g scan r =
      if r < scan then
        match findColFrom g r 0 with
        | some c => some (r, c)
        | none => findHdrFrom g scan (r + 1)
      else none := by
  unfold findHdrFrom
  cases h : scan - r with
  | zero =>
    rw [if_neg (by omega)]
    rfl
  | succ m =>
    have hm : m = scan - (r + 1) := by omega
    rw [findHdrFuel, hm]

/-- `_find_precinct_no_header`: scan the first `min max_scan_rows len`
rows, each left to right; `none` models the `ValueError` raise. -/
def find_precinct_no_header (g : Grid) (maxScanRows : Nat := 60) : Option (Nat × Nat) :=
  findHdrFrom g (min maxScanRows g.rows.length) 0

/-! ## Numeric cleaning (`_clean_int_series`, per element) -/

/-- `str.replace(r"[^\d\-]", "", regex=True)`: keep only ASCII digits and
minus signs. -/
def stripNonDigitMinus (s : String) : String :=
  String.mk (s.toList.filter fun c => c.isDigit || c = '-')

def digitsToNat (ds : List Char) : Nat :=
  ds.foldl (fun n c => n * 10 + (c.toNat - '0'.toNat)) 0

/-- Smallest value of the 64-bit backing store of the nullable `Int64`
dtype. -/
def int64Min : Int := -(2 ^ 63)

/-- Largest value of the 64-bit backing store of the nullable `Int64`
dtype. -/
def int64Max : Int := 2 ^ 63 - 1

/-- Integer conversion as `astype("Int64")` performs it on a residue made
of digits and minus signs: an optional single leading minus followed by at
least one digit, whose value must fit the signed 64-bit backing store.
A malformed residue (e.g. `"12-3"`) or one out of the int64 range (e.g.
`"9223372036854775808"` = 2^63) is unconvertible and raises. -/
def parsePyInt (t : String) : Option Int :=
  match t.toList with
  | [] => none
  | '-' :: ds =>
    if ds ≠ [] ∧ ds.all Char.isDigit then
      if int64Min ≤ -(digitsToNat ds : Int) then some (-(digitsToNat ds : Int)) else none
    else none
  | ds =>
    if ds.all Char.isDigit then
      if (digitsToNat ds : Int) ≤ int64Max then some (digitsToNat ds : Int) else none
    else none

/-- One element of `_clean_int_series`.  A missing cell stringifies to
`"nan"`/`"<NA>"`, whose residue is empty, hence `pd.NA`; a present string
is stripped to its digit/minus residue, `""` and `"-"` become `pd.NA`, and
any other residue is converted to an integer — `astype("Int64")` raises
`ValueError` (modelled as `.error` carrying the residue) when the residue
is not a clean integer literal. -/
def cleanIntCell (x : Cell) : Except String (Option Int) :=
  match x with
  | none => .ok none
  | some s =>
    let t := stripNonDigitMinus s
    if t = "" ∨ t = "-" then .ok none
    else
      match parsePyInt t with
      | some n => .ok (some n)
      | none => .error t

/-! ## Per-sheet extraction (`extract_sheet`)

The four column Series are combined with `pd.DataFrame({...})`, whose
dict-of-Series constructor aligns the Series on the **union** of their
indexes.  The real columns (`data.iloc[:, idx]`) carry `data`'s index
`R = {hdr_row+1, …, hdr_row+n}` (with `n = len(data)`), while the
out-of-range fallback `pd.Series([pd.NA] * len(data))` carries a fresh
`RangeIndex` `F = {0, …, n-1}`.  When some derived column falls back and
`n > 0`, the union `F ∪ R` (sorted ascending) is strictly larger than
`R`: the labels of `F \ R = {0, …, min(n, hdr_row+1) - 1}` become
*phantom rows* on which every real column reads `NaN` and every fallback
column reads `pd.NA`.  Every phantom label is `≤ hdr_row`, hence smaller
than every real label, so the aligned frame is exactly
`min(n, hdr_row+1)` phantom rows followed by the `n` real rows in order.
A value missing by alignment (`NaN`) and a missing value contained in a
Series (`NaN` from the grid, `pd.NA` from the fallback) behave
identically in every later step (`notna`, `astype(str)` to `"nan"`/
`"<NA>"` whose digit/minus residue is empty, `.eq("")` false), so both
are modelled as `none`. -/

/-- One row of the output frame: `Precinct No.` (the normalized text on
rows that come from a data row, `NaN` on phantom rows created by the
alignment), `Precinct Name` (text or missing), `Active`/`Inactive`
(nullable integers after cleaning). -/
structure ExtractedRecord where
  pno : Option String
  name : Option String
  active : Option Int
  inactive : Option Int
deriving Repr, DecidableEq

/-- One row of the aligned four-column frame, before filtering and
cleaning. -/
structure RawRecord where
  pno : Option String
  name : Option String
  activeCell : Cell
  inactiveCell : Cell
deriving Repr, DecidableEq

/-- The value a data row contributes to the aligned frame for column
`idx`: its cell when `idx < shape[1]` (`safe_col` returns the real
column), otherwise missing — on a real label the fallback Series holds
`pd.NA` where its `RangeIndex` overlaps and the alignment inserts `NaN`
elsewhere, both missing. -/
def colVal (ncols : Nat) (row : Row) (idx : Nat) : Cell :=
  if idx < ncols then (row.get? idx).getD none else none

/-- The `Precinct Name` transform
`lambda x: str(x).strip() if not pd.isna(x) else x`. -/
def nameOfCell (x : Cell) : Option String :=
  x.map pyStrip

/-- The aligned frame's row at a real label (one per data row), with the
fixed offsets `+1` (name), `+5` (active), `+6` (inactive) relative to the
header column `colP`; the precinct number column never falls back
(`colP < shape[1]`), so its value is present text. -/
def rawOfRow (ncols colP : Nat) (row : Row) : RawRecord :=
  { pno := some (normCell (colVal ncols row colP))
  , name := nameOfCell (colVal ncols row (colP + 1))
  , activeCell := colVal ncols row (colP + 5)
  , inactiveCell := colVal ncols row (colP + 6) }

/-- The aligned frame's row at a phantom label (a label of the fallback
`RangeIndex` absent from `data`'s index): every column reads missing. -/
def phantomRaw : RawRecord :=
  { pno := none, name := none, activeCell := none, inactiveCell := none }

/-- Does some derived column fall back to `pd.Series([pd.NA] * len)`
(one test per `safe_col` call on a derived column)? -/
def anyOverflow (ncols colP : Nat) : Bool :=
  decide (ncols ≤ colP + 1) || decide (ncols ≤ colP + 5) || decide (ncols ≤ colP + 6)

/-- Number of phantom rows the index union creates:
`|F \ R| = min(n, hdr_row+1)` when some column fell back, `0` when all
four Series share `data`'s index. -/
def numPhantom (ncols colP hdrRow n : Nat) : Nat :=
  if anyOverflow ncols colP then min n (hdrRow + 1) else 0

/-- `mask_keep`: keep a row iff
`pno.astype(str).str.len() > 0 or name.notna()`.  On a phantom row the
precinct number is `NaN`, which `astype(str)` turns into the 3-character
string `"nan"`, so phantom rows always pass the mask. -/
def keepRaw (r : RawRecord) : Bool :=
  (match r.pno with
   | some s => decide (s ≠ "")
   | none => true) || r.name.isSome

/-- `_clean_int_series` applied to a whole column: the first cell whose
residue is unparseable aborts the conversion with a `ValueError`. -/
def cleanColumn : List Cell → Except String (List (Option Int))
  | [] => .ok []
  | c :: cs =>
    match cleanIntCell c with
    | .error e => .error e
    | .ok v =>
      match cleanColumn cs with
      | .error e => .error e
      | .ok vs => .ok (v :: vs)

/-- Reassemble the cleaned columns with the text columns, row by row. -/
def mkRecords : List RawRecord → List (Option Int) → List (Option Int) → List ExtractedRecord
  | r :: rs, a :: as', i :: is' =>
    ⟨r.pno, r.name, a, i⟩ :: mkRecords rs as' is'
  | _, _, _ => []

/-- The final drop tests
`pno.eq("") & name.isna() & active.isna() & inactive.isna()`.  On a
phantom row the precinct number is `NaN` and `NaN.eq("")` is `False`, so
phantom rows are never dropped even though every field is missing. -/
def totallyEmpty (rec : ExtractedRecord) : Bool :=
  (match rec.pno with
   | some s => decide (s = "")
   | none => false) && rec.name.isNone && rec.active.isNone && rec.inactive.isNone

/-- Extraction failure: the header was not found (`ValueError` from
`_find_precinct_no_header`), or `astype("Int64")` raised on an
unparseable residue. -/
inductive ExtractError where
  | notFound
  | badInt (residue : String)
deriving Repr, DecidableEq

/-- `extract_sheet`: locate the header, take the rows after it, select
the four columns at the fixed offsets, build the aligned frame (the
phantom rows of the index union, all before the real rows, then one row
per data row), apply `mask_keep`, clean the `Active` then the `Inactive`
column, and apply the final drop. -/
def extract_sheet (g : Grid) : Except ExtractError (List ExtractedRecord) :=
  match find_precinct_no_header g with
  | none => .error .notFound
  | some (hdrRow, colP) =>
    let data := g.rows.drop (hdrRow + 1)
    let aligned := List.replicate (numPhantom g.ncols colP hdrRow data.length) phantomRaw
      ++ data.map (rawOfRow g.ncols colP)
    let kept := aligned.filter keepRaw
    match cleanColumn (kept.map RawRecord.activeCell) with
    | .error e => .error (.badInt e)
    | .ok actives =>
      match cleanColumn (kept.map RawRecord.inactiveCell) with
      | .error e => .error (.badInt e)
      | .ok inactives =>
        .ok ((mkRecords kept actives inactives).filter fun rec => !totallyEmpty rec)

/-! ## Whole-workbook extraction (`extract_all_sheets`) -/

/-- The canonical output header, in order, with the exact names used both
by `extract_sheet`'s DataFrame and by the empty-workbook fallback. -/
def outputColumns : List String :=
  ["Precinct No.", "Precinct Name", "Active", "Inactive"]

/-- Per-sheet loop of `extract_all_sheets`: a failing sheet contributes
nothing (the exception is caught, reported and the loop continues), and
results are concatenated in sheet order. -/
def extract_all_sheets : List Grid → List ExtractedRecord
  | [] => []
  | g :: gs =>
    (match extract_sheet g with
     | .ok rs => rs
     | .error _ => []) ++ extract_all_sheets gs

/-- The final flat table: the four canonical columns and the concatenated
rows (`pd.concat`, or the empty DataFrame with the same columns). -/
structure OutputTable where
  header : List String
  rows : List ExtractedRecord
deriving Repr, DecidableEq

def extract_workbook (sheets : List Grid) : OutputTable :=
  { header := outputColumns, rows := extract_all_sheets sheets }

/-! ## Characterization of the header scan -/

theorem findColFrom_ge (g : Grid) (r c : Nat) (h : g.ncols ≤ c) :
    findColFrom g r c = none := by
  rw [findColFrom_eq]
  simp [Nat.not_lt.mpr h]

theorem findColFrom_none_iff (g : Grid) (r : Nat) :
    ∀ n c, g.ncols - c ≤ n →
      (findColFrom g r c = none ↔
        ∀ j, c ≤ j → j < g.ncols → matchesAt g r j = false) := by
  intro n
  induction n with
  | zero =>
    intro c hc
    have hge : g.ncols ≤ c := by omega
    rw [findColFrom_ge g r c hge]
    constructor
    · intro _ j hj hjlt
      omega
    · intro _; rfl
  | succ n ih =>
    intro c hc
    rw [findColFrom_eq]
    by_cases h : c < g.ncols
    · rw [if_pos h]
      by_cases hm : matchesAt g r c = true
      · rw [if_pos hm]
        constructor
        · intro habs; exact absurd habs (by simp)
        · intro hall
          have := hall c le_rfl h
          rw [hm] at this
          exact absurd this (by simp)
      · rw [if_neg hm]
        rw [ih (c + 1) (by omega)]
        constructor
        · intro hall j hj hjlt
          rcases Nat.lt_or_ge c j with h' | h'
          · exact hall j h' hjlt
          · have : j = c := by omega
            subst this
            exact Bool.not_eq_true _ ▸ (by simpa using hm)
        · intro hall j hj hjlt
          exact hall j (by omega) hjlt
    · rw [if_neg h]
      constructor
      · intro _ j hj hjlt
        omega
      · intro _; rfl

theorem findColFrom_some_iff (g : Grid) (r : Nat) :
    ∀ n c c₀, g.ncols - c ≤ n →
      (findColFrom g r c = some c₀ ↔
        (c ≤ c₀ ∧ c₀ < g.ncols ∧ matchesAt g r c₀ = true ∧
         ∀ j, c ≤ j → j < c₀ → matchesAt g r j = false)) := by
  intro n
  induction n with
  | zero =>
    intro c c₀ hc
    have hge : g.ncols ≤ c := by omega
    rw [findColFrom_ge g r c hge]
    constructor
    · intro habs; exact absurd habs (by simp)
    · rintro ⟨h1, h2, _, _⟩
      omega
  | succ n ih =>
    intro c c₀ hc
    rw [findColFrom_eq]
    by_cases h : c < g.ncols
    · rw [if_pos h]
      by_cases hm : matchesAt g r c = true
      · rw [if_pos hm]
        constructor
        · intro hs
          have : c = c₀ := by simpa using hs
          subst this
          exact ⟨le_rfl, h, hm, fun j hj hjlt => by omega⟩
        · rintro ⟨h1, _, _, hfirst⟩
          rcases Nat.eq_or_lt_of_le h1 with rfl | hlt
          · rfl
          · have := hfirst c le_rfl hlt
            rw [hm] at this
            exact absurd this (by simp)
      · rw [if_neg hm]
        rw [ih (c + 1) c₀ (by omega)]
        constructor
        · rintro ⟨h1, h2, h3, hfirst⟩
          refine ⟨by omega, h2, h3, fun j hj hjlt => ?_⟩
          rcases Nat.lt_or_ge c j with h' | h'
          · exact hfirst j h' hjlt
          · have : j = c := by omega
            subst this
            simpa using hm
        · rintro ⟨h1, h2, h3, hfirst⟩
          have hne : c ≠ c₀ := by
            intro h'
            subst h'
            exact hm h3
          refine ⟨by omega, h2, h3, fun j hj hjlt => hfirst j (by omega) hjlt⟩
    · rw [if_neg h]
      constructor
      · intro habs; exact absurd habs (by simp)
      · rintro ⟨h1, h2, _, _⟩
        omega

theorem findHdrFrom_some_iff (g : Grid) (scan : Nat) :
    ∀ n r r₀ c₀, scan - r ≤ n →
      (findHdrFrom g scan r = some (r₀, c₀) ↔
        (r ≤ r₀ ∧ r₀ < scan ∧ findColFrom g r₀ 0 = some c₀ ∧
         ∀ j, r ≤ j → j < r₀ → findColFrom g j 0 = none)) := by
  intro n
  induction n with
  | zero =>
    intro r r₀ c₀ hr
    have hge : scan ≤ r := by omega
    rw [findHdrFrom_eq]
    rw [if_neg (Nat.not_lt.mpr hge)]
    constructor
    · intro habs; exact absurd habs (by simp)
    · rintro ⟨h1, h2, _, _⟩
      omega
  | succ n ih =>
    intro r r₀ c₀ hr
    rw [findHdrFrom_eq]
    by_cases h : r < scan
    · rw [if_pos h]
      cases hcol : findColFrom g r 0 with
      | some c =>
        constructor
        · intro hs
          have h1 : r = r₀ ∧ c = c₀ := by
            constructor <;> · injection hs with h'; cases h'; rfl
          obtain ⟨rfl, rfl⟩ := h1
          exact ⟨le_rfl, h, hcol, fun j hj hjlt => by omega⟩
        · rintro ⟨h1, h2, h3, hfirst⟩
          rcases Nat.eq_or_lt_of_le h1 with rfl | hlt
          · rw [hcol] at h3
            injection h3 with h'
            subst h'
            rfl
          · rw [hfirst r le_rfl hlt] at hcol
            exact absurd hcol (by simp)
      | none =>
        rw [ih (r + 1) r₀ c₀ (by omega)]
        constructor
        · rintro ⟨h1, h2, h3, hfirst⟩
          refine ⟨by omega, h2, h3, fun j hj hjlt => ?_⟩
          rcases Nat.lt_or_ge r j with h' | h'
          · exact hfirst j h' hjlt
          · have : j = r := by omega
            subst this
            exact hcol
        · rintro ⟨h1, h2, h3, hfirst⟩
          have hne : r ≠ r₀ := by
            intro h'
            subst h'
            rw [hcol] at h3
            exact absurd h3 (by simp)
          exact ⟨by omega, h2, h3, fun j hj hjlt => hfirst j (by omega) hjlt⟩
    · rw [if_neg h]
      constructor
      · intro habs; exact absurd habs (by simp)
      · rintro ⟨h1, h2, _, _⟩
        omega

theorem findHdrFrom_none_iff (g : Grid) (scan : Nat) :
    ∀ n r, scan - r ≤ n →
      (findHdrFrom g scan r = none ↔
        ∀ j, r ≤ j → j < scan → findColFrom g j 0 = none) := by
  intro n
  induction n with
  | zero =>
    intro r hr
    rw [findHdrFrom_eq]
    rw [if_neg (Nat.not_lt.mpr (by omega))]
    exact ⟨fun _ j hj hjlt => by omega, fun _ => rfl⟩
  | succ n ih =>
    intro r hr
    rw [findHdrFrom_eq]
    by_cases h : r < scan
    · rw [if_pos h]
      cases hcol : findColFrom g r 0 with
      | some c =>
        constructor
        · intro habs; exact absurd habs (by simp)
        · intro hall
          rw [hall r le_rfl h] at hcol
          exact absurd hcol (by simp)
      | none =>
        rw [ih (r + 1) (by omega)]
        constructor
        · intro hall j hj hjlt
          rcases Nat.lt_or_ge r j with h' | h'
          · exact hall j h' hjlt
          · have : j = r := by omega
            subst this
            exact hcol
        · intro hall j hj hjlt
          exact hall j (by omega) hjlt
    · rw [if_neg h]
      exact ⟨fun _ j hj hjlt => by omega, fun _ => rfl⟩

/-! ## Characterization of the per-sheet pipeline -/

/-- The value a cell cleans to when the conversion does not raise. -/
def cleanVal (c : Cell) : Option Int :=
  match cleanIntCell c with
  | .ok v => v
  | .error _ => none

/-- Does the conversion of this cell succeed? -/
def CleanOk (c : Cell) : Prop := ∃ v, cleanIntCell c = .ok v

/-- The aligned rows that survive `mask_keep`, in order: the index
union's phantom rows first, then one row per data row. -/
def keptRaws (g : Grid) (hdrRow colP : Nat) : List RawRecord :=
  (List.replicate (numPhantom g.ncols colP hdrRow (g.rows.drop (hdrRow + 1)).length)
      phantomRaw
    ++ (g.rows.drop (hdrRow + 1)).map (rawOfRow g.ncols colP)).filter keepRaw

/-- One kept raw row after successful cleaning. -/
def cleanRaw (r : RawRecord) : ExtractedRecord :=
  ⟨r.pno, r.name, cleanVal r.activeCell, cleanVal r.inactiveCell⟩

/-- The rows a successful `extract_sheet` run returns, as a total
function of the header position. -/
def sheetRows (g : Grid) (hdrRow colP : Nat) : List ExtractedRecord :=
  ((keptRaws g hdrRow colP).map cleanRaw).filter fun rec => !totallyEmpty rec

theorem cleanColumn_ok_iff (cs : List Cell) (vs : List (Option Int)) :
    cleanColumn cs = .ok vs ↔ ((∀ c ∈ cs, CleanOk c) ∧ vs = cs.map cleanVal) := by
  induction cs generalizing vs with
  | nil =>
    simp only [cleanColumn, List.map_nil, List.not_mem_nil]
    constructor
    · intro h
      injection h with h'
      exact ⟨fun c hc => absurd hc (by simp), h'.symm⟩
    · rintro ⟨_, rfl⟩
      rfl
  | cons c cs ih =>
    simp only [cleanColumn]
    cases h : cleanIntCell c with
    | error e =>
      constructor
      · intro habs; exact absurd habs (by simp)
      · rintro ⟨hall, _⟩
        obtain ⟨v, hv⟩ := hall c (by simp)
        rw [h] at hv
        exact absurd hv (by simp)
    | ok v =>
      cases hc : cleanColumn cs with
      | error e =>
        constructor
        · intro habs; exact absurd habs (by simp)
        · rintro ⟨hall, _⟩
          have : cleanColumn cs = .ok (cs.map cleanVal) :=
            (ih _).mpr ⟨fun x hx => hall x (by simp [hx]), rfl⟩
          rw [hc] at this
          exact absurd this (by simp)
      | ok vs' =>
        obtain ⟨hall', hvs'⟩ := (ih vs').mp hc
        constructor
        · intro hv
          have hveq : vs = v :: vs' := by
            injection hv with h'
            exact h'.symm
          refine ⟨?_, ?_⟩
          · intro x hx
            rcases List.mem_cons.mp hx with rfl | hx'
            · exact ⟨v, h⟩
            · exact hall' x hx'
          · rw [hveq, hvs', List.map_cons]
            have : cleanVal c = v := by
              unfold cleanVal
              rw [h]
            rw [this]
        · rintro ⟨hall, rfl⟩
          rw [List.map_cons]
          have hcv : cleanVal c = v := by
            unfold cleanVal
            rw [h]
          rw [hcv, hvs']

theorem mkRecords_map (rs : List RawRecord) :
    mkRecords rs (rs.map fun r => cleanVal r.activeCell)
      (rs.map fun r => cleanVal r.inactiveCell) = rs.map cleanRaw := by
  induction rs with
  | nil => rfl
  | cons r rs ih =>
    simp only [List.map_cons, mkRecords, ih]
    rfl

/-- `extract_sheet`, rewritten through the named pieces of the pipeline
(definitionally equal to the source translation). -/
theorem extract_sheet_eq (g : Grid) :
    extract_sheet g =
      match find_precinct_no_header g with
      | none => .error .notFound
      | some (hr, p) =>
        match cleanColumn ((keptRaws g hr p).map RawRecord.activeCell) with
        | .error e => .error (.badInt e)
        | .ok actives =>
          match cleanColumn ((keptRaws g hr p).map RawRecord.inactiveCell) with
          | .error e => .error (.badInt e)
          | .ok inactives =>
            .ok ((mkRecords (keptRaws g hr p) actives inactives).filter
              fun rec => !totallyEmpty rec) := rfl

/-- `extract_sheet` succeeds exactly when the header is found and every
kept row's `Active`/`Inactive` cells convert, and then the result is
`sheetRows`. -/
theorem extract_sheet_ok_iff (g : Grid) (rs : List ExtractedRecord) :
    extract_sheet g = .ok rs ↔
      ∃ hr p, find_precinct_no_header g = some (hr, p) ∧
        (∀ raw ∈ keptRaws g hr p, CleanOk raw.activeCell ∧ CleanOk raw.inactiveCell) ∧
        rs = sheetRows g hr p := by
  rw [extract_sheet_eq]
  cases hf : find_precinct_no_header g with
  | none =>
    simp
  | some rc =>
    obtain ⟨hr, p⟩ := rc
    have hsome : ∀ hr' p', (some ((hr, p) : Nat × Nat) = some (hr', p')) ↔
        (hr' = hr ∧ p' = p) := by
      intro hr' p'
      constructor
      · intro h
        injection h with h'
        exact ⟨congrArg Prod.fst h'.symm, congrArg Prod.snd h'.symm⟩
      · rintro ⟨rfl, rfl⟩
        rfl
    simp only [hsome]
    cases hca : cleanColumn ((keptRaws g hr p).map RawRecord.activeCell) with
    | error e =>
      constructor
      · intro habs; exact absurd habs (by simp)
      · rintro ⟨hr', p', ⟨he1, he2⟩, hall, rfl⟩
        rw [he1, he2] at hall
        have hok : cleanColumn ((keptRaws g hr p).map RawRecord.activeCell) =
            .ok (((keptRaws g hr p).map RawRecord.activeCell).map cleanVal) :=
          (cleanColumn_ok_iff _ _).mpr
            ⟨fun c hc => by
              obtain ⟨raw, hraw, rfl⟩ := List.mem_map.mp hc
              exact (hall raw hraw).1, rfl⟩
        rw [hca] at hok
        exact absurd hok (by simp)
    | ok actives =>
      cases hci : cleanColumn ((keptRaws g hr p).map RawRecord.inactiveCell) with
      | error e =>
        constructor
        · intro habs; exact absurd habs (by simp)
        · rintro ⟨hr', p', ⟨he1, he2⟩, hall, rfl⟩
          rw [he1, he2] at hall
          have hok : cleanColumn ((keptRaws g hr p).map RawRecord.inactiveCell) =
              .ok (((keptRaws g hr p).map RawRecord.inactiveCell).map cleanVal) :=
            (cleanColumn_ok_iff _ _).mpr
              ⟨fun c hc => by
                obtain ⟨raw, hraw, rfl⟩ := List.mem_map.mp hc
                exact (hall raw hraw).2, rfl⟩
          rw [hci] at hok
          exact absurd hok (by simp)
      | ok inactives =>
        obtain ⟨halla, hda⟩ := (cleanColumn_ok_iff _ _).mp hca
        obtain ⟨halli, hdi⟩ := (cleanColumn_ok_iff _ _).mp hci
        have hmk : mkRecords (keptRaws g hr p) actives inactives =
            (keptRaws g hr p).map cleanRaw := by
          rw [hda, hdi, List.map_map, List.map_map]
          exact mkRecords_map _
        constructor
        · intro h
          refine ⟨hr, p, ⟨rfl, rfl⟩,
            fun raw hraw => ⟨halla _ (List.mem_map_of_mem _ hraw),
              halli _ (List.mem_map_of_mem _ hraw)⟩, ?_⟩
          have heq : rs = (mkRecords (keptRaws g hr p) actives inactives).filter
              fun rec => !totallyEmpty rec := by
            injection h with h'
            exact h'.symm
          rw [heq, hmk]
          rfl
        · rintro ⟨hr', p', ⟨he1, he2⟩, hall, rfl⟩
          rw [he1, he2]
          dsimp only
          rw [hmk]
          rfl

/-! ## Widening a grid with entirely-missing columns -/

/-- `g` with `k` additional entirely-missing columns on the right. -/
def padGrid (g : Grid) (k : Nat) : Grid :=
  ⟨g.ncols + k, g.rows.map fun row => row ++ List.replicate k none⟩

/-! ## Concrete example grids -/

/-- The worked example of the spec: two filler rows, the header row at
index 2 with the header cell in column 2, one data row. -/
def gC8 : Grid :=
  { ncols := 9
  , rows :=
      [ [some "County", none, none, none, none, none, none, none, none]
      , [none, none, none, none, none, none, none, none, none]
      , [some "", some "", some "Precinct No.", some "Name", some "", some "",
         some "", some "Active", some "Inactive"]
      , [some "", some "", some "001", some "Downtown", some "", some "",
         some "", some "1,050", some "12"] ] }

/-- Header at (0,0); one data row with only the precinct number `"007"`;
one entirely missing data row (dropped). -/
def g007 : Grid :=
  { ncols := 7
  , rows :=
      [ [some "Precinct No.", none, none, none, none, none, none]
      , [some "007", none, none, none, none, none, none]
      , [none, none, none, none, none, none, none] ] }

/-- The header sits in the last row: there are no data rows. -/
def gLast : Grid :=
  { ncols := 2, rows := [[some "x", none], [some "precinct no", none]] }

/-- A sheet too narrow for the `+5`/`+6` offsets: `safe_col` falls back
to `pd.Series([pd.NA] * 1)` with `RangeIndex {0}`, while the real columns
carry `data`'s index `{1}`, so the frame gains the phantom label 0. -/
def gNarrow : Grid :=
  { ncols := 2
  , rows := [ [some "Precinct No.", some "Name"], [some "001", some "Downtown"] ] }

/-- A data row whose name cell is whitespace only and every other field
missing or empty. -/
def gWS : Grid :=
  { ncols := 7
  , rows := [ [some "Precinct No.", some "Name", none, none, none, none, none]
            , [none, some "   ", none, none, none, none, none] ] }

/-- A sheet with no header match at all. -/
def gNoHdr : Grid :=
  { ncols := 2, rows := [[some "hello", none]] }

/-! ## Claims -/

/-- C1 (counterexample): numeric cleaning is not total.  On the input
`"12-3"` the digit/minus residue `"12-3"` survives the `""`/`"-"`
replacement and the integer conversion raises (`astype("Int64")` cannot
parse it), contradicting "cleaning … never raises" and ""12-3" yields
some implementation-defined result without crashing". -/
theorem c1_counterexample : cleanIntCell (some "12-3") = Except.error "12-3" := rfl

/-- C1 (amended): cleaning strips every character that is not a digit or
minus, maps an empty residue or the literal `"-"` to missing, otherwise
converts to an integer; `"1,234"` yields 1234, `""`, `"-"` and missing
yield missing; cleaning succeeds exactly when the residue is empty,
`"-"`, or a canonical integer literal (optional leading minus, then
digits) whose value fits the signed 64-bit range `[-2^63, 2^63-1]`
backing the `Int64` dtype — on a malformed residue such as `"12-3"`, or
an out-of-range one such as `"9223372036854775808"` (= 2^63), the
conversion raises instead of producing a value. -/
theorem c1_numeric_cleaning :
    (∀ s : String,
      (∃ v, cleanIntCell (some s) = .ok v) ↔
        (stripNonDigitMinus s = "" ∨ stripNonDigitMinus s = "-" ∨
         (parsePyInt (stripNonDigitMinus s)).isSome = true)) ∧
    (∀ t : String, ∀ n : Int, parsePyInt t = some n → int64Min ≤ n ∧ n ≤ int64Max) ∧
    cleanIntCell (some "1,234") = .ok (some 1234) ∧
    cleanIntCell (some "") = .ok none ∧
    cleanIntCell (some "-") = .ok none ∧
    cleanIntCell none = .ok none ∧
    cleanIntCell (some "9223372036854775807") = .ok (some 9223372036854775807) ∧
    cleanIntCell (some "-9223372036854775808") = .ok (some (-9223372036854775808)) ∧
    cleanIntCell (some "9223372036854775808") = Except.error "9223372036854775808" := by
  refine ⟨?_, ?_, rfl, rfl, rfl, rfl, rfl, rfl, rfl⟩
  case refine_2 =>
    intro t n h
    have hmin0 : int64Min ≤ (0 : Int) := by decide
    have hmax0 : (0 : Int) ≤ int64Max := by decide
    unfold parsePyInt at h
    split at h
    · simp at h
    · split_ifs at h with h1 h2
      injection h with h'
      omega
    · split_ifs at h with h1 h2
      injection h with h'
      omega
  intro s
  show (∃ v, (let t := stripNonDigitMinus s;
    if t = "" ∨ t = "-" then Except.ok none
    else match parsePyInt t with
      | some n => .ok (some n)
      | none => .error t) = .ok v) ↔ _
  dsimp only
  by_cases h1 : stripNonDigitMinus s = "" ∨ stripNonDigitMinus s = "-"
  · rw [if_pos h1]
    simp only [Except.ok.injEq, exists_eq]
    rcases h1 with h | h
    · simp [h]
    · simp [h]
  · rw [if_neg h1]
    push_neg at h1
    cases hp : parsePyInt (stripNonDigitMinus s) with
    | some n =>
      simp [h1.1, h1.2]
    | none =>
      simp [h1.1, h1.2, hp]

/-- C1 (witness for the amendment): a residue that is a clean integer
literal converts without raising. -/
theorem c1_witness : ∃ v, cleanIntCell (some " 1 050 ") = Except.ok v :=
  (c1_numeric_cleaning.1 " 1 050 ").mpr (by decide)

/-- C5 (code bug): the claimed invariant fails on the program.  The true
half holds: a data row with precinct number `"007"` and the other three
fields missing is kept, and the entirely missing data row of `g007` is
dropped (first conjunct).  But on a sheet whose derived columns overflow
the width, the index-union alignment emits a phantom record whose
precinct number and name are both missing and whose every field is empty
after cleaning, and it survives the final drop because `NaN.eq("")` is
`False` — contradicting the invariant and the code's own comment "Drop
rows that are totally empty after cleanup" (second conjunct). -/
theorem c5_phantom_breaks_invariant :
    extract_sheet g007 =
      .ok [{ pno := some "007", name := none, active := none, inactive := none }] ∧
    extract_sheet gNarrow =
      .ok [{ pno := none, name := none, active := none, inactive := none },
           { pno := some "001", name := some "Downtown", active := none,
             inactive := none }] :=
  ⟨rfl, rfl⟩

/-- C6: the workbook loop processes sheets in order; a sheet whose
extraction fails contributes nothing and does not abort the loop; a sheet
that succeeds contributes its rows before the remaining sheets' rows; and
when every sheet fails or yields no rows the result is the empty table
with the canonical four-column shape. -/
theorem c6_sheet_isolation :
    (∀ g gs e, extract_sheet g = .error e →
      extract_all_sheets (g :: gs) = extract_all_sheets gs) ∧
    (∀ g gs rs, extract_sheet g = .ok rs →
      extract_all_sheets (g :: gs) = rs ++ extract_all_sheets gs) ∧
    (∀ gs : List Grid,
      (∀ g ∈ gs, (∃ e, extract_sheet g = .error e) ∨ extract_sheet g = .ok []) →
      extract_workbook gs = ⟨outputColumns, []⟩) := by
  refine ⟨?_, ?_, ?_⟩
  · intro g gs e h
    rw [extract_all_sheets, h]
    rfl
  · intro g gs rs h
    rw [extract_all_sheets, h]
  · have key : ∀ gs : List Grid,
        (∀ g ∈ gs, (∃ e, extract_sheet g = .error e) ∨ extract_sheet g = .ok []) →
        extract_all_sheets gs = [] := by
      intro gs
      induction gs with
      | nil => intro _; rfl
      | cons g gs ih =>
        intro hall
        rw [extract_all_sheets]
        have hrest : extract_all_sheets gs = [] :=
          ih fun g' hg' => hall g' (by simp [hg'])
        rcases hall g (by simp) with ⟨e, he⟩ | he
        · rw [he, hrest]
          rfl
        · rw [he, hrest]
          rfl
    intro gs hall
    unfold extract_workbook
    rw [key gs hall]

/-- C6 (witness): a header-less sheet is skipped, leaving the remaining
(empty) workbook's rows, and a workbook of failing sheets yields the
empty canonical table. -/
theorem c6_witness :
    extract_all_sheets [gNoHdr] = extract_all_sheets ([] : List Grid) ∧
    extract_workbook [gNoHdr] = ⟨outputColumns, []⟩ :=
  ⟨c6_sheet_isolation.1 gNoHdr [] .notFound rfl,
   c6_sheet_isolation.2.2 [gNoHdr] (fun g hg => by
      rw [List.mem_singleton.mp hg]
      exact Or.inl ⟨.notFound, rfl⟩)⟩

/-- C8: on the worked example grid — header row
`["", "", "Precinct No.", "Name", "", "", "", "Active", "Inactive"]` at
row 2 (no earlier match, so the header is found at row 2, column 2)
followed by the data row
`["", "", "001", "Downtown", "", "", "", "1,050", "12"]` — extraction
emits exactly the record `{"001", "Downtown", 1050, 12}`. -/
theorem c8_worked_example :
    find_precinct_no_header gC8 = some (2, 2) ∧
    extract_sheet gC8 =
      .ok [{ pno := some "001", name := some "Downtown", active := some 1050,
             inactive := some 12 }] :=
  ⟨rfl, rfl⟩

/-- C9: a data row whose precinct-name cell is present but whitespace-only
while the precinct number normalizes to `""` and the active/inactive cells
are missing is kept, and its name is emitted as the empty string (not as
missing). -/
theorem c9_whitespace_name (g : Grid) (rs : List ExtractedRecord)
    (hr p i : Nat) (row : Row) (s : String)
    (hok : extract_sheet g = .ok rs)
    (hfind : find_precinct_no_header g = some (hr, p))
    (hrow : (g.rows.drop (hr + 1)).get? i = some row)
    (hpno : normCell (colVal g.ncols row p) = "")
    (hname : colVal g.ncols row (p + 1) = some s)
    (hws : pyStrip s = "")
    (hact : colVal g.ncols row (p + 5) = none)
    (hina : colVal g.ncols row (p + 6) = none) :
    ({ pno := some "", name := some "", active := none, inactive := none } :
      ExtractedRecord) ∈ rs := by
  obtain ⟨hr', p', hfind', hall, rfl⟩ := (extract_sheet_ok_iff g rs).mp hok
  rw [hfind] at hfind'
  injection hfind' with hpair
  have h1 : hr = hr' := congrArg Prod.fst hpair
  have h2 : p = p' := congrArg Prod.snd hpair
  subst h1
  subst h2
  have hrowmem : row ∈ g.rows.drop (hr + 1) := List.get?_mem hrow
  have hraweq : rawOfRow g.ncols p row =
      { pno := some "", name := some "", activeCell := none, inactiveCell := none } := by
    unfold rawOfRow nameOfCell
    rw [hpno, hname, hact, hina]
    simp [hws]
  have hkeep : keepRaw (rawOfRow g.ncols p row) = true := by
    rw [hraweq]
    rfl
  have hmemkept : rawOfRow g.ncols p row ∈ keptRaws g hr p :=
    List.mem_filter.mpr
      ⟨List.mem_append.mpr (Or.inr (List.mem_map_of_mem _ hrowmem)), hkeep⟩
  unfold sheetRows
  apply List.mem_filter.mpr
  refine ⟨List.mem_map.mpr ⟨rawOfRow g.ncols p row, hmemkept, ?_⟩, rfl⟩
  rw [hraweq]
  rfl

/-- C9 (witness): the whitespace-only-name row of `gWS` is kept with the
empty-string name. -/
theorem c9_witness :
    ({ pno := some "", name := some "", active := none, inactive := none } :
      ExtractedRecord) ∈
      [({ pno := some "", name := some "", active := none, inactive := none } :
        ExtractedRecord)] :=
  c9_whitespace_name gWS _ 0 0 0 [none, some "   ", none, none, none, none, none]
    "   " rfl rfl rfl rfl rfl rfl rfl rfl

/-- C10: when the first header match lies in the last row of the grid,
there are no data rows, and extraction returns the empty record list
without failing. -/
theorem c10_header_last_row (g : Grid) (hr p : Nat)
    (hfind : find_precinct_no_header g = some (hr, p))
    (hlast : g.rows.length = hr + 1) :
    extract_sheet g = .ok [] := by
  rw [extract_sheet_eq, hfind]
  have hkept : keptRaws g hr p = [] := by
    unfold keptRaws
    rw [List.drop_eq_nil_of_le (by omega)]
    have h0 : numPhantom g.ncols p hr (List.length ([] : List Row)) = 0 := by
      unfold numPhantom
      split
      · simp
      · rfl
    rw [h0]
    rfl
  dsimp only
  rw [hkept]
  rfl

/-- C10 (witness): the sheet whose header is its last row extracts to no
records. -/
theorem c10_witness : extract_sheet gLast = .ok [] :=
  c10_header_last_row gLast 1 0 rfl rfl

/-- C2: for every grid and scan bound, the header locator returns
`some (r, c)` exactly when the normalized cell at `(r, c)` matches the
header pattern, `(r, c)` lies in the scanned region (rows
`0 … min max_rows row_count - 1`, all columns), and no cell earlier in
row-major order matches; it returns `none` (the `NotFound` failure)
exactly when no cell of the scanned region matches. -/
theorem c2_locate_header (g : Grid) (m : Nat) :
    (∀ r c, find_precinct_no_header g m = some (r, c) ↔
      (r < min m g.rows.length ∧ c < g.ncols ∧ matchesAt g r c = true ∧
       (∀ r' < r, ∀ c' < g.ncols, matchesAt g r' c' = false) ∧
       (∀ c' < c, matchesAt g r c' = false))) ∧
    (find_precinct_no_header g m = none ↔
      ∀ r < min m g.rows.length, ∀ c < g.ncols, matchesAt g r c = false) := by
  constructor
  · intro r c
    unfold find_precinct_no_header
    rw [findHdrFrom_some_iff g (min m g.rows.length) (min m g.rows.length) 0 r c
      (by omega)]
    constructor
    · rintro ⟨-, hrlt, hcol, hprev⟩
      obtain ⟨-, hclt, hm, hcfirst⟩ :=
        (findColFrom_some_iff g r g.ncols 0 c (by omega)).mp hcol
      refine ⟨hrlt, hclt, hm, ?_, ?_⟩
      · intro r' hr' c' hc'
        exact (findColFrom_none_iff g r' g.ncols 0 (by omega)).mp
          (hprev r' (by omega) hr') c' (by omega) hc'
      · intro c' hc'
        exact hcfirst c' (by omega) hc'
    · rintro ⟨hrlt, hclt, hm, hprevrows, hrowfirst⟩
      refine ⟨by omega, hrlt, ?_, ?_⟩
      · exact (findColFrom_some_iff g r g.ncols 0 c (by omega)).mpr
          ⟨by omega, hclt, hm, fun j _ hj => hrowfirst j hj⟩
      · intro j _ hj
        exact (findColFrom_none_iff g j g.ncols 0 (by omega)).mpr
          (fun c' _ hc' => hprevrows j hj c' hc')
  · unfold find_precinct_no_header
    rw [findHdrFrom_none_iff g (min m g.rows.length) (min m g.rows.length) 0 (by omega)]
    constructor
    · intro hall r hr c hc
      exact (findColFrom_none_iff g r g.ncols 0 (by omega)).mp
        (hall r (by omega) hr) c (by omega) hc
    · intro hall j _ hj
      exact (findColFrom_none_iff g j g.ncols 0 (by omega)).mpr
        (fun c _ hc => hall j hj c hc)

/-- C2 (witness): on the worked example grid the characterization
produces the header position (2, 2). -/
theorem c2_witness : find_precinct_no_header gC8 60 = some (2, 2) :=
  ((c2_locate_header gC8 60).1 2 2).mpr
    ⟨by decide, by decide, by decide, by decide, by decide⟩

/-- C3 (code bug): on an overflow sheet the program emits more records
than there are data rows, so not every emitted record's name, active and
inactive values come from the derived columns of its data row: `gNarrow`
has exactly one data row below its header at (0, 0), yet two records are
emitted, and the first — a phantom row created by the index-union
alignment, with every field missing — derives from no data row at all. -/
theorem c3_phantom_has_no_source_row :
    find_precinct_no_header gNarrow = some (0, 0) ∧
    (gNarrow.rows.drop (0 + 1)).length = 1 ∧
    extract_sheet gNarrow =
      .ok [{ pno := none, name := none, active := none, inactive := none },
           { pno := some "001", name := some "Downtown", active := none,
             inactive := none }] :=
  ⟨rfl, rfl, rfl⟩

/-- C4 (code bug): a sheet whose derived columns overflow the width does
not extract as if those columns existed and were entirely missing:
`padGrid gNarrow 5` is exactly that widened sheet and yields one record,
while `gNarrow` itself yields an additional phantom record from the
index-union alignment of the `pd.NA` fallback Series, so the two outputs
differ in the number of emitted rows. -/
theorem c4_overflow_not_missing_columns :
    extract_sheet (padGrid gNarrow 5) =
      .ok [{ pno := some "001", name := some "Downtown", active := none,
             inactive := none }] ∧
    extract_sheet gNarrow =
      .ok [{ pno := none, name := none, active := none, inactive := none },
           { pno := some "001", name := some "Downtown", active := none,
             inactive := none }] ∧
    ([{ pno := none, name := none, active := none, inactive := none },
      { pno := some "001", name := some "Downtown", active := none,
        inactive := none }] : List ExtractedRecord) ≠
      [{ pno := some "001", name := some "Downtown", active := none,
         inactive := none }] :=
  ⟨rfl, rfl, by decide⟩

/-- C7 (code bug): the output table does carry the canonical four-column
header, but `Precinct No.` is not always text: a workbook with an
overflow sheet emits a phantom row whose precinct number is missing (a
float `NaN` in the frame, not a string), produced by the index-union
alignment rather than from any source cell. -/
theorem c7_phantom_pno_not_text :
    extract_workbook [gNarrow] =
      { header := outputColumns
      , rows := [{ pno := none, name := none, active := none, inactive := none },
                 { pno := some "001", name := some "Downtown", active := none,
                   inactive := none }] } :=
  rfl

end ElectionFairness
